import Mathlib

/-!
A formal model of the go-perun channel client core: the channel state machine
(`channel/machine.go`), the client-side update protocol (`client` package),
the use-once responders, the bounded receiver (`peer` package) and the wire
codecs of the channel-update messages. Go code is embedded shallowly:
pure functions become Lean functions, stateful methods become functions from
the receiver value to a result carrying the updated value, machine integers
are `Nat` with explicit bounds where they matter, fallible operations return
an explicit result type, and Go panics (nil dereference, index out of range,
`log.Panic`) become an explicit `panics` outcome.
-/

namespace Perun

/-- wallet.Address: opaque participant identifier with decidable equality. -/
abbrev Wallet.Address := Nat

/-- wallet.Sig: a signature, backend-defined; modelled as a byte list
(the ethereum backend's signatures are `SigLen`-byte strings). -/
abbrev Wallet.Sig := List Nat

/-- channel.Index (Go `uint16`): participant index. -/
abbrev Index := Nat

/-- channel.ID: 32-byte digest identifying a channel. -/
abbrev ChannelID := List Nat

/-- channel.Asset: backend-defined asset identifier, modelled opaquely. -/
abbrev Asset := Nat

/-- channel.App: the application plug-in, identified by its definition
address (`App.Def()`); modelled by that address. -/
abbrev App := Wallet.Address

/-- App.Def() returns the identifying address of the app. -/
def App.Def (a : App) : Wallet.Address := a

/-- channel.SubAlloc: a sub-allocation earmarked to a child channel.
Balances (channel.Bal, Go `*big.Int`) are modelled as `Int`. -/
structure SubAlloc where
  ID : ChannelID
  Bals : List Int
deriving DecidableEq

/-- channel.Allocation: per-participant per-asset balances plus locked
sub-allocations. -/
structure Allocation where
  Assets : List Asset
  OfParts : List (List Int)
  Locked : List SubAlloc
deriving DecidableEq

/-- channel.State: versioned snapshot of the channel. -/
structure State where
  ID : ChannelID
  Version : Nat
  App : Perun.App
  Allocation : Perun.Allocation
  Data : Nat
  IsFinal : Bool
deriving DecidableEq

/-- channel.Transaction: a state (Go `*State`, so possibly nil) together
with the participant-indexed signature slots (each possibly nil). -/
structure Transaction where
  State : Option Perun.State
  Sigs : List (Option Wallet.Sig)
deriving DecidableEq

/-- The zero `Transaction{}` used to clear the staging slot. -/
def Transaction.empty : Transaction := { State := none, Sigs := [] }

/-- channel.Params: immutable channel parameters (`id` is the cached
channel ID digest). -/
structure Params where
  id : ChannelID
  ChallengeDuration : Nat
  Parts : List Wallet.Address
  App : Perun.App
  Nonce : Int
deriving DecidableEq

/-- channel.Phase: the seven phases of the channel pushdown automaton. -/
inductive Phase where
  | InitActing
  | InitSigning
  | Funding
  | Acting
  | Signing
  | Final
  | Settled
deriving DecidableEq

/-- channel.PhaseTransition. -/
structure PhaseTransition where
  From : Phase
  To : Phase
deriving DecidableEq

/-- `validPhaseTransitions` from machine.go: the legal transition table. -/
def validPhaseTransitions (t : PhaseTransition) : Bool :=
  match t with
  | ⟨.InitActing, .InitSigning⟩ => true
  | ⟨.InitSigning, .Funding⟩ => true
  | ⟨.Funding, .Acting⟩ => true
  | ⟨.Acting, .Signing⟩ => true
  | ⟨.Signing, .Acting⟩ => true
  | ⟨.Signing, .Final⟩ => true
  | ⟨.Final, .Settled⟩ => true
  | _ => false

/-- `signingPhases` from machine.go. -/
def signingPhases : List Phase := [.InitSigning, .Signing]

/-- `inPhase` from machine.go: whether `phase` is in `phases`. -/
def inPhase (phase : Phase) (phases : List Phase) : Bool :=
  phases.any (fun p => p = phase)

/-- Decidable equality for `Except`, used to evaluate the model on
concrete inputs. -/
instance {ε α : Type} [DecidableEq ε] [DecidableEq α] :
    DecidableEq (Except ε α) := fun a b =>
  match a, b with
  | .error e, .error f =>
    if h : e = f then .isTrue (by rw [h]) else .isFalse (by intro hc; cases hc; exact h rfl)
  | .ok x, .ok y =>
    if h : x = y then .isTrue (by rw [h]) else .isFalse (by intro hc; cases hc; exact h rfl)
  | .error _, .ok _ => .isFalse (by intro hc; cases hc)
  | .ok _, .error _ => .isFalse (by intro hc; cases hc)

/-- The error kinds produced by the machine (§7): phase-transition errors
carry the current phase and the attempted transition
(`newPhaseTransitionError`), state-transition errors come from
`NewStateTransitionError`, everything else is a plain error. -/
inductive Err where
  | phaseTransition (current : Phase) (expected : PhaseTransition) (msg : String)
  | stateTransition (msg : String)
  | generic (msg : String)
deriving DecidableEq

/-- channel.machine: the channel pushdown automaton (machine.go). The
phase subscribers and logger are omitted (internal housekeeping). -/
structure Machine where
  phase : Phase
  acc : Wallet.Address
  idx : Index
  params : Params
  stagingTX : Transaction
  currentTX : Transaction
  prevTXs : List Transaction
deriving DecidableEq

/-- Result of a machine operation: success with the updated machine and a
value, an error with the machine as left behind by the failed call, or a
Go panic (recording the machine state at the panic point). -/
inductive MRes (α : Type) where
  | ok (m : Machine) (val : α)
  | err (m : Machine) (e : Err)
  | panics (m : Machine)
deriving DecidableEq

/-- The external collaborators of the machine (§6): account signing,
signature verification and the app-specific transition check. -/
structure Backend where
  Sign : Wallet.Address → Params → State → Except String Wallet.Sig
  Verify : Wallet.Address → Params → State → Wallet.Sig → Except String Bool
  AppValid : Params → State → State → Index → Except String Unit

/-- machine.N(): the number of participants. -/
def Machine.N (m : Machine) : Nat := m.params.Parts.length

/-- machine.error: constructs a phase-transition error from the current
phase and the attempted transition. -/
def Machine.error (m : Machine) (expected : PhaseTransition) (msg : String) : Err :=
  .phaseTransition m.phase expected msg

/-- machine.selfTransition: the transition from the current phase to itself. -/
def Machine.selfTransition (m : Machine) : PhaseTransition :=
  ⟨m.phase, m.phase⟩

/-- machine.expect: errors unless the machine is in `tr.From` and the
attempted transition is in the legal-transition table. -/
def Machine.expect (m : Machine) (tr : PhaseTransition) : Option Err :=
  if m.phase ≠ tr.From then
    some (m.error tr "not in correct phase")
  else if ¬ validPhaseTransitions ⟨m.phase, tr.To⟩ then
    some (m.error tr "forbidden phase transition")
  else
    none

/-- machine.Sig: returns the own signature on the staged state, signing
and memoizing it into `stagingTX.Sigs[idx]` on first use. Indexing an
out-of-range or missing staging slot is a Go panic. -/
def Machine.Sig (B : Backend) (m : Machine) : MRes Wallet.Sig :=
  if ¬ inPhase m.phase signingPhases then
    .err m (m.error m.selfTransition "can only create own signature in a signing phase")
  else
    match m.stagingTX.Sigs.get? m.idx with
    | none => .panics m
    | some (some sg) => .ok m sg
    | some none =>
      match m.stagingTX.State with
      | none => .panics m
      | some st =>
        match B.Sign m.acc m.params st with
        | .error e => .err m (.generic e)
        | .ok sg =>
          .ok { m with stagingTX := { m.stagingTX with Sigs := m.stagingTX.Sigs.set m.idx (some sg) } } sg

/-- machine.AddSig: verifies another participant's signature on the staged
state and stores it; errors when the slot is already filled or verification
fails; panics on an out-of-range index. -/
def Machine.AddSig (B : Backend) (m : Machine) (idx : Index) (sig : Wallet.Sig) : MRes Unit :=
  if ¬ inPhase m.phase signingPhases then
    .err m (m.error m.selfTransition "can only add signature in a signing phase")
  else
    match m.stagingTX.Sigs.get? idx with
    | none => .panics m
    | some (some _) => .err m (.generic "signature already present")
    | some none =>
      match m.params.Parts.get? idx, m.stagingTX.State with
      | none, _ => .panics m
      | some _, none => .panics m
      | some addr, some st =>
        match B.Verify addr m.params st sig with
        | .error e => .err m (.generic e)
        | .ok false => .err m (.generic "invalid signature")
        | .ok true =>
          .ok { m with stagingTX := { m.stagingTX with Sigs := m.stagingTX.Sigs.set idx (some sig) } } ()

/-- machine.setStaging: installs `state` as the staging state with `N`
empty signature slots and sets the phase. -/
def Machine.setStaging (m : Machine) (phase : Phase) (state : State) : Machine :=
  { m with
    stagingTX := { State := some state, Sigs := List.replicate m.N none }
    phase := phase }

/-- machine.DiscardUpdate: clears the staging transaction and reverts
`Signing → Acting`. -/
def Machine.DiscardUpdate (m : Machine) : MRes Unit :=
  match m.expect ⟨.Signing, .Acting⟩ with
  | some e => .err m e
  | none => .ok { m with stagingTX := Transaction.empty, phase := .Acting } ()

/-- machine.enableStaged: checks the expected transition, that the staged
state's finality matches the target phase, and that every signature slot is
filled; on success pushes `currentTX` to `prevTXs`, promotes `stagingTX`
and advances the phase. -/
def Machine.enableStaged (m : Machine) (expected : PhaseTransition) : MRes Unit :=
  match m.expect expected with
  | some e => .err m e
  | none =>
    match m.stagingTX.State with
    | none => .panics m
    | some st =>
      if (decide (expected.To = Phase.Final)) != st.IsFinal then
        .err m (m.error expected "State.IsFinal and target phase don't match")
      else if ¬ m.stagingTX.Sigs.all Option.isSome then
        .err m (m.error expected "signature missing from staging TX")
      else
        .ok { m with
          prevTXs := m.prevTXs ++ [m.currentTX]
          currentTX := m.stagingTX
          stagingTX := Transaction.empty
          phase := expected.To } ()

/-- machine.EnableInit: promotes the initial staging state
(`InitSigning → Funding`). -/
def Machine.EnableInit (m : Machine) : MRes Unit :=
  m.enableStaged ⟨.InitSigning, .Funding⟩

/-- machine.EnableUpdate: promotes the staging state (`Signing → Acting`). -/
def Machine.EnableUpdate (m : Machine) : MRes Unit :=
  m.enableStaged ⟨.Signing, .Acting⟩

/-- machine.EnableFinal: promotes the final staging state
(`Signing → Final`). -/
def Machine.EnableFinal (m : Machine) : MRes Unit :=
  m.enableStaged ⟨.Signing, .Final⟩

/-- machine.SetFunded: `Funding → Acting`, signalled by the funder. -/
def Machine.SetFunded (m : Machine) : MRes Unit :=
  match m.expect ⟨.Funding, .Acting⟩ with
  | some e => .err m e
  | none => .ok { m with phase := .Acting } ()

/-- machine.SetSettled: `Final → Settled`, signalled by the settler. -/
def Machine.SetSettled (m : Machine) : MRes Unit :=
  match m.expect ⟨.Final, .Settled⟩ with
  | some e => .err m e
  | none => .ok { m with phase := .Settled } ()

/-- Modelled from the spec: `Allocation.Valid` (channel/allocation.go is not
among the sources) — "non-negative, well-formed" (§4.1 check 5): every
participant row and every locked sub-allocation carries one balance per
asset, and every balance is non-negative. -/
def Allocation.Valid (a : Allocation) : Bool :=
  a.OfParts.all (fun row => row.length = a.Assets.length && row.all (fun b => decide (0 ≤ b))) &&
  a.Locked.all (fun s => s.Bals.length = a.Assets.length && s.Bals.all (fun b => decide (0 ≤ b)))

/-- The per-asset column totals of an allocation: for each asset, the sum of
all participants' balances plus all locked sub-allocations' balances (§8
invariant 4: "per-asset sums of `OfParts` + `Locked`"). -/
def Allocation.sums (a : Allocation) : List Int :=
  (List.range a.Assets.length).map (fun i =>
    ((a.OfParts.map (fun row => row.getD i 0)).sum : Int) +
    (a.Locked.map (fun s => s.Bals.getD i 0)).sum)

/-- Modelled from the spec: `equalSum` (channel/allocation.go is not among
the sources) — errors when the two allocations hold different numbers of
assets, otherwise reports whether the per-asset column sums agree (§4.1
check 6, funds preservation). -/
def equalSum (a b : Allocation) : Except String Bool :=
  if a.Assets.length ≠ b.Assets.length then .error "different number of assets"
  else .ok (decide (a.sums = b.sums))

/-- machine.validTransition: checks, against the current transaction, that
`to` has the right channel ID and app, that the current state is not final,
that the version increases by one, that `to`'s allocation is valid and that
the column sums are preserved. Read-only: every branch returns `m` itself.
Dereferencing a nil current state is a Go panic. -/
def Machine.validTransition (m : Machine) (toState : State) : MRes Unit :=
  if toState.ID ≠ m.params.id then .err m (.generic "new state's ID doesn't match")
  else if ¬ (App.Def m.params.App = App.Def toState.App) then
    .err m (.generic "new state's App dosen't match")
  else
    match m.currentTX.State with
    | none => .panics m
    | some cur =>
      if cur.IsFinal then .err m (.stateTransition "cannot advance final state")
      else if cur.Version + 1 ≠ toState.Version then
        .err m (.stateTransition "version must increase by one")
      else if ¬ toState.Allocation.Valid then
        .err m (.stateTransition "invalid allocation")
      else
        match equalSum cur.Allocation toState.Allocation with
        | .error e => .err m (.generic e)
        | .ok false => .err m (.stateTransition "allocations must be preserved")
        | .ok true => .ok m ()

/-- Modelled from the spec: `StateMachine.Update` (channel/statemachine.go is
not among the sources) — "legal only in `Acting`. Runs `validTransition`
against `currentTx.State`; stages `newState` and transitions to `Signing`"
(§4.1), with the app-specific check `App.ValidTransition(params, from, to,
actorIdx)` run against the new state (§4.1, §6). -/
def Machine.Update (B : Backend) (m : Machine) (toState : State) (actorIdx : Index) : MRes Unit :=
  match m.expect ⟨.Acting, .Signing⟩ with
  | some e => .err m e
  | none =>
    match m.validTransition toState with
    | .err m1 e => .err m1 e
    | .panics m1 => .panics m1
    | .ok _ _ =>
      match m.currentTX.State with
      | none => .panics m
      | some cur =>
        match B.AppValid m.params cur toState actorIdx with
        | .error e => .err m (.generic e)
        | .ok _ => .ok (m.setStaging .Signing toState) ()

/-! ## Client update protocol (client package) -/

/-- client.ChannelUpdate: a channel update proposal. -/
structure ChannelUpdate where
  State : Perun.State
  ActorIdx : Index
deriving DecidableEq

/-- client.msgChannelUpdate: the wire message of a channel update proposal. -/
structure msgChannelUpdate where
  State : Perun.State
  ActorIdx : Nat
  Sig : Wallet.Sig
deriving DecidableEq

/-- client.msgChannelUpdateAcc: the positive reply to a ChannelUpdate. -/
structure msgChannelUpdateAcc where
  ChannelID : Perun.ChannelID
  Version : Nat
  Sig : Wallet.Sig
deriving DecidableEq

/-- client.msgChannelUpdateRej: the negative reply to a ChannelUpdate. -/
structure msgChannelUpdateRej where
  Reason : List Nat
  Alt : Perun.State
  ActorIdx : Nat
  Sig : Wallet.Sig
deriving DecidableEq

/-- The sum of channel messages sent on the wire by the update protocol. -/
inductive WireMsg where
  | update (m : msgChannelUpdate)
  | updateAcc (m : msgChannelUpdateAcc)
  | updateRej (m : msgChannelUpdateRej)
deriving DecidableEq

/-- Channel.validTwoPartyUpdate: the actor must be the proposer and no
locked sub-allocations are allowed. -/
def validTwoPartyUpdate (up : ChannelUpdate) (sigIdx : Index) : Option String :=
  if up.ActorIdx ≠ sigIdx then
    some "only update proposals with the proposing peer as actor are allowed"
  else if up.State.Allocation.Locked.length > 0 then
    some "no locked sub-allocations allowed"
  else
    none

/-- client.Channel.Update (proposer side), as implemented: validates the
two-party update, stages it via `machine.Update`, self-signs via
`machine.Sig` (discarding the update when signing fails), then hands a
`msgChannelUpdateAcc{ID, Version, Sig}` to the connection and returns.
The controller is modelled by its machine and `conn.send` by returning the
sent message; the source returns right after the send — receiving the
peer's reply is left as a TODO there. -/
def Channel.Update (B : Backend) (m : Machine) (up : ChannelUpdate) : MRes WireMsg :=
  match validTwoPartyUpdate up m.idx with
  | some e => .err m (.generic e)
  | none =>
    match Machine.Update B m up.State up.ActorIdx with
    | .err m1 e => .err m1 e
    | .panics m1 => .panics m1
    | .ok m1 _ =>
      match Machine.Sig B m1 with
      | .err m2 e =>
        match m2.DiscardUpdate with
        | .ok m3 _ => .err m3 e
        | .err m3 derr => .err m3 derr
        | .panics m3 => .panics m3
      | .panics m2 => .panics m2
      | .ok m2 sg =>
        .ok m2 (.updateAcc { ChannelID := m2.params.id, Version := up.State.Version, Sig := sg })

/-! ## Use-once responders (client package) -/

/-- Modelled from the spec: `atomic.Bool.TrySet` (pkg/sync/atomic is not
among the sources) — atomically sets the flag, reporting whether it was
previously unset; modelled sequentially on the flag value. Returns
(succeeded, new flag value). -/
def trySet (b : Bool) : Bool × Bool := (!b, true)

/-- The use-once state shared by ProposalResponder and UpdateResponder:
the `called` atomic flag. The accept/reject go-channels are abstracted:
what matters is whether the call proceeds into the protocol side. -/
structure Responder where
  called : Bool
deriving DecidableEq

/-- Outcome of calling Accept or Reject on a responder. -/
inductive CallResult where
  | proceeds
  | panicked
deriving DecidableEq

/-- The common control flow of all four responder methods: `if
!r.called.TrySet() { log.Panic(...) }` and otherwise proceed into the
protocol side. -/
def Responder.call (r : Responder) : CallResult × Responder :=
  let s := trySet r.called
  if s.1 then (.proceeds, { called := s.2 }) else (.panicked, { called := s.2 })

/-- ProposalResponder.Accept. -/
def ProposalResponder.Accept (r : Responder) : CallResult × Responder := r.call

/-- ProposalResponder.Reject. -/
def ProposalResponder.Reject (r : Responder) : CallResult × Responder := r.call

/-- UpdateResponder.Accept. -/
def UpdateResponder.Accept (r : Responder) : CallResult × Responder := r.call

/-- UpdateResponder.Reject. -/
def UpdateResponder.Reject (r : Responder) : CallResult × Responder := r.call

/-- A call made by the user on a responder: Accept or Reject, on a proposal
or an update responder. -/
inductive RCall where
  | acceptProp
  | rejectProp
  | acceptUpd
  | rejectUpd
deriving DecidableEq

/-- Dispatch one user call to the corresponding responder method. -/
def RCall.apply : RCall → Responder → CallResult × Responder
  | .acceptProp => ProposalResponder.Accept
  | .rejectProp => ProposalResponder.Reject
  | .acceptUpd => UpdateResponder.Accept
  | .rejectUpd => UpdateResponder.Reject

/-- Run a sequence of user calls against a responder, collecting each
call's outcome. -/
def runCalls (r : Responder) : List RCall → List CallResult
  | [] => []
  | c :: cs =>
    let s := c.apply r
    s.1 :: runCalls s.2 cs

/-- A fresh responder (`newProposalResponder` / `newUpdateResponder`):
the atomic flag starts unset. -/
def newResponder : Responder := { called := false }

/-! ## Receiver (peer package) -/

/-- An abstract peer, as seen by the receiver. -/
abbrev PeerT := Nat

/-- An abstract wire message, as seen by the receiver. -/
abbrev MsgT := Nat

/-- `receiverBufferSize` from the peer package: how many messages can be
queued in a receiver before blocking. -/
def receiverBufferSize : Nat := 16

/-- peer.Receiver: a bounded queue of (peer, message) tuples plus the
closed flag of its embedded Closer. `cap` is the capacity of the Go
channel `msgs`, set at construction. -/
structure Receiver where
  closed : Bool
  msgs : List (PeerT × MsgT)
  cap : Nat
deriving DecidableEq

/-- peer.NewReceiver: an open receiver over a channel of capacity
`receiverBufferSize`. -/
def NewReceiver : Receiver :=
  { closed := false, msgs := [], cap := receiverBufferSize }

/-- The possible outcomes of `Receiver.Next`: a dequeued tuple with the
updated receiver, the `(nil, nil)` return, or blocking (queue empty with
neither the context nor the closer fired). -/
inductive NextRes where
  | dequeued (p : PeerT) (msg : MsgT) (r : Receiver)
  | nilNil (r : Receiver)
  | blocked
deriving DecidableEq

/-- peer.Receiver.Next: its two selects, with the context-done and closed
signals sampled at entry (sequential snapshot of the concurrent code). The
first select returns `(nil, nil)` at once when either signal is set; the
second select otherwise dequeues, or blocks on an empty queue. -/
def Receiver.Next (ctxDone : Bool) (r : Receiver) : NextRes :=
  if ctxDone then .nilNil r
  else if r.closed then .nilNil r
  else
    match r.msgs with
    | [] => .blocked
    | t :: ts => .dequeued t.1 t.2 { r with msgs := ts }

/-- peer.Receiver.Put: enqueues into the channel, which blocks when the
buffer is full (`none`); a closed receiver discards the message. -/
def Receiver.Put (r : Receiver) (p : PeerT) (msg : MsgT) : Option Receiver :=
  if r.closed then some r
  else if r.msgs.length < r.cap then some { r with msgs := r.msgs ++ [(p, msg)] }
  else none

/-! ## Wire codecs

The message `Encode`/`Decode` methods of client/msgchannelupdate.go compose
the wire package's primitive codecs. The primitives themselves are not among
the sources; they are modelled from the spec's wire conventions (§6):
integers are big-endian fixed-width, strings and byte arrays are
length-prefixed, channel IDs are 32 raw bytes, and signatures have the
backend's fixed length (`SigLen = 65`, backend/ethereum/wallet/backend.go).
Byte streams are byte lists; a decoder returns the decoded value and the
rest of the stream, or `none` on a short stream. -/

namespace Wire

abbrev Byte := Nat

/-- Modelled from the spec: big-endian fixed-width encoding of a `uint16`. -/
def encU16 (n : Nat) : List Byte := [n / 256 % 256, n % 256]

/-- Modelled from the spec: big-endian `uint16` decoding. -/
def decU16 : List Byte → Option (Nat × List Byte)
  | a :: b :: rest => some (a * 256 + b, rest)
  | _ => none

/-- Modelled from the spec: big-endian fixed-width encoding of a `uint64`. -/
def encU64 (n : Nat) : List Byte :=
  [n / 72057594037927936 % 256, n / 281474976710656 % 256,
   n / 1099511627776 % 256, n / 4294967296 % 256,
   n / 16777216 % 256, n / 65536 % 256, n / 256 % 256, n % 256]

/-- Modelled from the spec: big-endian `uint64` decoding. -/
def decU64 : List Byte → Option (Nat × List Byte)
  | b0 :: b1 :: b2 :: b3 :: b4 :: b5 :: b6 :: b7 :: rest =>
    some (((((((b0 * 256 + b1) * 256 + b2) * 256 + b3) * 256 + b4) * 256
      + b5) * 256 + b6) * 256 + b7, rest)
  | _ => none

/-- Reading a fixed number of raw bytes (32-byte channel IDs, fixed-length
signatures). -/
def decBytes (k : Nat) (l : List Byte) : Option (List Byte × List Byte) :=
  if k ≤ l.length then some (l.take k, l.drop k) else none

/-- Modelled from the spec: length-prefixed byte strings (`Reason:string`). -/
def encVarBytes (b : List Byte) : List Byte := encU16 b.length ++ b

/-- Length-prefixed byte-string decoding. -/
def decVarBytes (l : List Byte) : Option (List Byte × List Byte) :=
  match decU16 l with
  | some (n, rest) => decBytes n rest
  | none => none

/-- One-byte boolean encoding. -/
def encBool (b : Bool) : List Byte := [if b then 1 else 0]

/-- One-byte boolean decoding (any non-zero byte is true). -/
def decBool : List Byte → Option (Bool × List Byte)
  | x :: rest => some (decide (x ≠ 0), rest)
  | [] => none

/-- Modelled from the spec: a balance on the wire, big-endian fixed-width
(non-negative, below `2^64`). -/
def encBal (b : Int) : List Byte := encU64 b.toNat

/-- Balance decoding. -/
def decBal (l : List Byte) : Option (Int × List Byte) :=
  match decU64 l with
  | some (n, rest) => some ((n : Int), rest)
  | none => none

/-- Modelled from the spec: length-prefixed sequences — a `uint16` count
followed by the elements. -/
def encList (enc : α → List Byte) (l : List α) : List Byte :=
  encU16 l.length ++ (l.map enc).flatten

/-- Decode exactly `n` consecutive elements. -/
def decListN (dec : List Byte → Option (α × List Byte)) :
    Nat → List Byte → Option (List α × List Byte)
  | 0, l => some ([], l)
  | n + 1, l =>
    match dec l with
    | some (x, rest) =>
      match decListN dec n rest with
      | some (xs, rest2) => some (x :: xs, rest2)
      | none => none
    | none => none

/-- Length-prefixed sequence decoding. -/
def decList (dec : List Byte → Option (α × List Byte)) (l : List Byte) :
    Option (List α × List Byte) :=
  match decU16 l with
  | some (n, rest) => decListN dec n rest
  | none => none

/-- Modelled from the spec: SubAlloc on the wire — 32-byte channel ID, then
the length-prefixed balances. -/
def encSubAlloc (s : SubAlloc) : List Byte := s.ID ++ encList encBal s.Bals

/-- SubAlloc decoding. -/
def decSubAlloc (l : List Byte) : Option (SubAlloc × List Byte) :=
  match decBytes 32 l with
  | some (id, r1) =>
    match decList decBal r1 with
    | some (bals, r2) => some ({ ID := id, Bals := bals }, r2)
    | none => none
  | none => none

/-- Modelled from the spec: Allocation on the wire — the assets, the
per-participant balance rows and the locked sub-allocations, each as a
length-prefixed sequence. -/
def encAllocation (a : Allocation) : List Byte :=
  encList encU64 a.Assets ++ encList (encList encBal) a.OfParts ++
    encList encSubAlloc a.Locked

/-- Allocation decoding. -/
def decAllocation (l : List Byte) : Option (Allocation × List Byte) :=
  match decList decU64 l with
  | some (assets, r1) =>
    match decList (decList decBal) r1 with
    | some (ofParts, r2) =>
      match decList decSubAlloc r2 with
      | some (locked, r3) =>
        some ({ Assets := assets, OfParts := ofParts, Locked := locked }, r3)
      | none => none
    | none => none
  | none => none

/-- Modelled from the spec: the `channel.State` wire format (the channel
package's state serialization is not among the sources) — the fields in
declaration order under §6's conventions: 32-byte ID, `uint64` version, the
app's definition address (backend-defined fixed width, modelled as a
`uint64`), the allocation, the app data (backend-defined, modelled as a
`uint64`) and the final flag. -/
def encState (st : State) : List Byte :=
  st.ID ++ encU64 st.Version ++ encU64 st.App ++ encAllocation st.Allocation ++
    encU64 st.Data ++ encBool st.IsFinal

/-- State decoding. -/
def decState (l : List Byte) : Option (State × List Byte) :=
  match decBytes 32 l with
  | some (id, r1) =>
    match decU64 r1 with
    | some (version, r2) =>
      match decU64 r2 with
      | some (app, r3) =>
        match decAllocation r3 with
        | some (alloc, r4) =>
          match decU64 r4 with
          | some (data, r5) =>
            match decBool r5 with
            | some (fin, r6) =>
              some ({ ID := id, Version := version, App := app,
                      Allocation := alloc, Data := data, IsFinal := fin }, r6)
            | none => none
          | none => none
        | none => none
      | none => none
    | none => none
  | none => none

/-- `SigLen` (backend/ethereum/wallet/backend.go): length of a signature
in bytes. -/
def SigLen : Nat := 65

/-- `DecodeSig` (backend/ethereum/wallet/backend.go): reads a byte string
of the backend's fixed signature length. -/
def DecodeSig (l : List Byte) : Option (Wallet.Sig × List Byte) :=
  decBytes SigLen l

/-- Wire well-formedness of an allocation: every count fits the `uint16`
length prefix, assets fit their fixed width, balances are non-negative and
fit their fixed width, and locked channel IDs are 32 bytes. -/
def allocWF (a : Allocation) : Prop :=
  a.Assets.length < 65536 ∧ (∀ x ∈ a.Assets, x < 18446744073709551616) ∧
  a.OfParts.length < 65536 ∧
  (∀ row ∈ a.OfParts, row.length < 65536 ∧
    ∀ b ∈ row, 0 ≤ b ∧ b < 18446744073709551616) ∧
  a.Locked.length < 65536 ∧
  (∀ s ∈ a.Locked, s.ID.length = 32 ∧ s.Bals.length < 65536 ∧
    ∀ b ∈ s.Bals, 0 ≤ b ∧ b < 18446744073709551616)

instance (a : Allocation) : Decidable (allocWF a) := by
  unfold allocWF; infer_instance

/-- Wire well-formedness of a state. -/
def stateWF (st : State) : Prop :=
  st.ID.length = 32 ∧ st.Version < 18446744073709551616 ∧
  st.App < 18446744073709551616 ∧ st.Data < 18446744073709551616 ∧
  allocWF st.Allocation

instance (st : State) : Decidable (stateWF st) := by
  unfold stateWF; infer_instance

/-- Wire well-formedness of a msgChannelUpdate. -/
def updWF (c : msgChannelUpdate) : Prop :=
  stateWF c.State ∧ c.ActorIdx < 65536 ∧ c.Sig.length = SigLen

/-- Wire well-formedness of a msgChannelUpdateAcc. -/
def accWF (c : msgChannelUpdateAcc) : Prop :=
  c.ChannelID.length = 32 ∧ c.Version < 18446744073709551616 ∧
  c.Sig.length = SigLen

/-- Wire well-formedness of a msgChannelUpdateRej. -/
def rejWF (c : msgChannelUpdateRej) : Prop :=
  c.Reason.length < 65536 ∧ stateWF c.Alt ∧ c.ActorIdx < 65536 ∧
  c.Sig.length = SigLen


instance (c : msgChannelUpdate) : Decidable (updWF c) := by
  unfold updWF; infer_instance

instance (c : msgChannelUpdateAcc) : Decidable (accWF c) := by
  unfold accWF; infer_instance

instance (c : msgChannelUpdateRej) : Decidable (rejWF c) := by
  unfold rejWF; infer_instance

theorem decU16_enc (n : Nat) (h : n < 65536) (rest : List Byte) :
    decU16 (encU16 n ++ rest) = some (n, rest) := by
  simp only [encU16, List.cons_append, List.nil_append, decU16]
  congr 1
  congr 1
  omega

theorem decU64_enc (n : Nat) (h : n < 18446744073709551616) (rest : List Byte) :
    decU64 (encU64 n ++ rest) = some (n, rest) := by
  simp only [encU64, List.cons_append, List.nil_append, decU64]
  congr 1
  congr 1
  omega

theorem decBytes_append (b rest : List Byte) :
    decBytes b.length (b ++ rest) = some (b, rest) := by
  unfold decBytes
  rw [if_pos (by simp)]
  rw [List.take_left, List.drop_left]

theorem decVarBytes_enc (b : List Byte) (h : b.length < 65536) (rest : List Byte) :
    decVarBytes (encVarBytes b ++ rest) = some (b, rest) := by
  unfold decVarBytes encVarBytes
  rw [List.append_assoc]
  simp only [decU16_enc _ h, decBytes_append]

theorem decBool_enc (b : Bool) (rest : List Byte) :
    decBool (encBool b ++ rest) = some (b, rest) := by
  cases b <;> simp [encBool, decBool]

theorem decBal_enc (b : Int) (h0 : 0 ≤ b) (h1 : b < 18446744073709551616)
    (rest : List Byte) : decBal (encBal b ++ rest) = some (b, rest) := by
  unfold decBal encBal
  simp only [decU64_enc b.toNat (by omega) rest, Int.toNat_of_nonneg h0]

theorem decListN_enc {α : Type} {enc : α → List Byte}
    {dec : List Byte → Option (α × List Byte)} (l : List α)
    (h : ∀ x ∈ l, ∀ r, dec (enc x ++ r) = some (x, r)) (rest : List Byte) :
    decListN dec l.length ((l.map enc).flatten ++ rest) = some (l, rest) := by
  induction l with
  | nil => simp [decListN]
  | cons x xs ih =>
    simp only [List.map_cons, List.flatten_cons, List.length_cons, decListN,
      List.append_assoc, h x (List.mem_cons_self x xs),
      ih (fun y hy r => h y (List.mem_cons_of_mem x hy) r)]

theorem decList_enc {α : Type} {enc : α → List Byte}
    {dec : List Byte → Option (α × List Byte)} (l : List α)
    (h : ∀ x ∈ l, ∀ r, dec (enc x ++ r) = some (x, r))
    (hlen : l.length < 65536) (rest : List Byte) :
    decList dec (encList enc l ++ rest) = some (l, rest) := by
  unfold decList encList
  rw [List.append_assoc]
  simp only [decU16_enc _ hlen, decListN_enc l h]

theorem decSubAlloc_enc (s : SubAlloc) (hid : s.ID.length = 32)
    (hn : s.Bals.length < 65536)
    (hb : ∀ b ∈ s.Bals, 0 ≤ b ∧ b < 18446744073709551616) (rest : List Byte) :
    decSubAlloc (encSubAlloc s ++ rest) = some (s, rest) := by
  unfold decSubAlloc encSubAlloc
  rw [List.append_assoc, ← hid]
  simp only [decBytes_append,
    decList_enc s.Bals (fun b hbm r => decBal_enc b (hb b hbm).1 (hb b hbm).2 r) hn]

theorem decAllocation_enc (a : Allocation) (h : allocWF a) (rest : List Byte) :
    decAllocation (encAllocation a ++ rest) = some (a, rest) := by
  obtain ⟨h1, h2, h3, h4, h5, h6⟩ := h
  unfold decAllocation encAllocation
  rw [List.append_assoc, List.append_assoc]
  simp only [decList_enc a.Assets (fun x hx r => decU64_enc x (h2 x hx) r) h1,
    decList_enc a.OfParts (fun row hrow r =>
      decList_enc row (fun b hbm r2 =>
        decBal_enc b ((h4 row hrow).2 b hbm).1 ((h4 row hrow).2 b hbm).2 r2)
        (h4 row hrow).1 r) h3,
    decList_enc a.Locked (fun s hs r =>
      decSubAlloc_enc s (h6 s hs).1 (h6 s hs).2.1 (h6 s hs).2.2 r) h5]

theorem decState_enc (st : State) (h : stateWF st) (rest : List Byte) :
    decState (encState st ++ rest) = some (st, rest) := by
  obtain ⟨hid, hv, ha, hd, hal⟩ := h
  unfold decState encState
  rw [List.append_assoc, List.append_assoc, List.append_assoc,
    List.append_assoc, List.append_assoc, ← hid]
  simp only [decBytes_append, decU64_enc _ hv, decU64_enc _ ha,
    decAllocation_enc _ hal, decU64_enc _ hd, decBool_enc]

theorem DecodeSig_enc (sg : Wallet.Sig) (h : sg.length = SigLen)
    (rest : List Byte) : DecodeSig (sg ++ rest) = some (sg, rest) := by
  unfold DecodeSig
  rw [← h, decBytes_append]

end Wire

/-- msgChannelUpdate.Encode: `wire.Encode(w, c.State, c.ActorIdx, c.Sig)`. -/
def msgChannelUpdate.Encode (c : msgChannelUpdate) : List Wire.Byte :=
  Wire.encState c.State ++ Wire.encU16 c.ActorIdx ++ c.Sig

/-- msgChannelUpdate.Decode: the state and actor index via `wire.Decode`,
then the signature via `wallet.DecodeSig`. -/
def msgChannelUpdate.Decode (l : List Wire.Byte) :
    Option (msgChannelUpdate × List Wire.Byte) :=
  match Wire.decState l with
  | some (st, r1) =>
    match Wire.decU16 r1 with
    | some (ai, r2) =>
      match Wire.DecodeSig r2 with
      | some (sg, r3) => some ({ State := st, ActorIdx := ai, Sig := sg }, r3)
      | none => none
    | none => none
  | none => none

/-- msgChannelUpdateAcc.Encode: `wire.Encode(w, c.ChannelID, c.Version,
c.Sig)`. -/
def msgChannelUpdateAcc.Encode (c : msgChannelUpdateAcc) : List Wire.Byte :=
  c.ChannelID ++ Wire.encU64 c.Version ++ c.Sig

/-- msgChannelUpdateAcc.Decode. -/
def msgChannelUpdateAcc.Decode (l : List Wire.Byte) :
    Option (msgChannelUpdateAcc × List Wire.Byte) :=
  match Wire.decBytes 32 l with
  | some (id, r1) =>
    match Wire.decU64 r1 with
    | some (v, r2) =>
      match Wire.DecodeSig r2 with
      | some (sg, r3) => some ({ ChannelID := id, Version := v, Sig := sg }, r3)
      | none => none
    | none => none
  | none => none

/-- msgChannelUpdateRej.Encode: `wire.Encode(w, c.Reason, c.Alt,
c.ActorIdx, c.Sig)`. -/
def msgChannelUpdateRej.Encode (c : msgChannelUpdateRej) : List Wire.Byte :=
  Wire.encVarBytes c.Reason ++ Wire.encState c.Alt ++ Wire.encU16 c.ActorIdx ++ c.Sig

/-- msgChannelUpdateRej.Decode. -/
def msgChannelUpdateRej.Decode (l : List Wire.Byte) :
    Option (msgChannelUpdateRej × List Wire.Byte) :=
  match Wire.decVarBytes l with
  | some (reason, r1) =>
    match Wire.decState r1 with
    | some (alt, r2) =>
      match Wire.decU16 r2 with
      | some (ai, r3) =>
        match Wire.DecodeSig r3 with
        | some (sg, r4) =>
          some ({ Reason := reason, Alt := alt, ActorIdx := ai, Sig := sg }, r4)
        | none => none
      | none => none
    | none => none
  | none => none

theorem msgChannelUpdate_roundtrip (c : msgChannelUpdate) (h : Wire.updWF c)
    (rest : List Wire.Byte) :
    msgChannelUpdate.Decode (c.Encode ++ rest) = some (c, rest) := by
  obtain ⟨hst, hai, hsg⟩ := h
  unfold msgChannelUpdate.Decode msgChannelUpdate.Encode
  rw [List.append_assoc, List.append_assoc]
  simp only [Wire.decState_enc _ hst, Wire.decU16_enc _ hai,
    Wire.DecodeSig_enc _ hsg]

theorem msgChannelUpdateAcc_roundtrip (c : msgChannelUpdateAcc)
    (h : Wire.accWF c) (rest : List Wire.Byte) :
    msgChannelUpdateAcc.Decode (c.Encode ++ rest) = some (c, rest) := by
  obtain ⟨hid, hv, hsg⟩ := h
  unfold msgChannelUpdateAcc.Decode msgChannelUpdateAcc.Encode
  rw [List.append_assoc, List.append_assoc, ← hid]
  simp only [Wire.decBytes_append, Wire.decU64_enc _ hv,
    Wire.DecodeSig_enc _ hsg]

theorem msgChannelUpdateRej_roundtrip (c : msgChannelUpdateRej)
    (h : Wire.rejWF c) (rest : List Wire.Byte) :
    msgChannelUpdateRej.Decode (c.Encode ++ rest) = some (c, rest) := by
  obtain ⟨hr, hst, hai, hsg⟩ := h
  unfold msgChannelUpdateRej.Decode msgChannelUpdateRej.Encode
  rw [List.append_assoc, List.append_assoc, List.append_assoc]
  simp only [Wire.decVarBytes_enc _ hr, Wire.decState_enc _ hst,
    Wire.decU16_enc _ hai, Wire.DecodeSig_enc _ hsg]

end Perun

/-! ## Concrete fixtures

A concrete two-party channel used to evaluate the definitions: participants
10 and 20, one asset, initial balances 100/100 (spec §8, S1/S2). -/

namespace Perun

/-- A concrete backend: signatures are 65-byte strings determined by the
signer's address; verification checks exactly that; the app accepts all
transitions (the spec's MockApp). -/
def testBackend : Backend :=
  { Sign := fun a _ _ => .ok (List.replicate Wire.SigLen a),
    Verify := fun a _ _ sg => .ok (sg == List.replicate Wire.SigLen a),
    AppValid := fun _ _ _ _ => .ok () }

def exID : ChannelID := List.replicate 32 3

def exParams : Params :=
  { id := exID, ChallengeDuration := 10, Parts := [10, 20], App := 7, Nonce := 0 }

def exState0 : State :=
  { ID := exID, Version := 0, App := 7,
    Allocation := { Assets := [1], OfParts := [[100], [100]], Locked := [] },
    Data := 0, IsFinal := false }

def exState1 : State :=
  { exState0 with
    Version := 1
    Allocation := { Assets := [1], OfParts := [[90], [110]], Locked := [] } }

def exSig0 : Wallet.Sig := List.replicate Wire.SigLen 10

def exSig1 : Wallet.Sig := List.replicate Wire.SigLen 20

/-- A machine of participant 0 in `Acting` holding the fully-signed
version-0 state. -/
def actingMachine : Machine :=
  { phase := .Acting, acc := 10, idx := 0, params := exParams,
    stagingTX := Transaction.empty,
    currentTX := { State := some exState0, Sigs := [some exSig0, some exSig1] },
    prevTXs := [] }

/-- The same machine in `Signing` with the version-1 state staged and only
the own signature present. -/
def signingMachine : Machine :=
  { actingMachine with
    phase := .Signing
    stagingTX := { State := some exState1, Sigs := [some exSig0, none] } }

/-- C9: for every channel-update wire message (msgChannelUpdate,
msgChannelUpdateAcc, msgChannelUpdateRej) that fits the wire's fixed widths
and length prefixes, encoding to a byte stream and decoding that stream
yields a message equal to the original (with any trailing stream intact). -/
theorem wire_update_messages_roundtrip :
    ∀ (u : msgChannelUpdate) (a : msgChannelUpdateAcc) (r : msgChannelUpdateRej)
      (restU restA restR : List Wire.Byte),
      Wire.updWF u → Wire.accWF a → Wire.rejWF r →
      msgChannelUpdate.Decode (u.Encode ++ restU) = some (u, restU) ∧
      msgChannelUpdateAcc.Decode (a.Encode ++ restA) = some (a, restA) ∧
      msgChannelUpdateRej.Decode (r.Encode ++ restR) = some (r, restR) := by
  intro u a r restU restA restR hu ha hr
  exact ⟨msgChannelUpdate_roundtrip u hu restU,
    msgChannelUpdateAcc_roundtrip a ha restA,
    msgChannelUpdateRej_roundtrip r hr restR⟩

def exUpdMsg : msgChannelUpdate := { State := exState1, ActorIdx := 0, Sig := exSig0 }

def exAccMsg : msgChannelUpdateAcc := { ChannelID := exID, Version := 1, Sig := exSig1 }

def exRejMsg : msgChannelUpdateRej :=
  { Reason := [116, 111, 111], Alt := exState0, ActorIdx := 1, Sig := exSig1 }

theorem wire_update_messages_roundtrip_witness :
    msgChannelUpdate.Decode (exUpdMsg.Encode ++ []) = some (exUpdMsg, []) ∧
    msgChannelUpdateAcc.Decode (exAccMsg.Encode ++ []) = some (exAccMsg, []) ∧
    msgChannelUpdateRej.Decode (exRejMsg.Encode ++ []) = some (exRejMsg, []) :=
  wire_update_messages_roundtrip exUpdMsg exAccMsg exRejMsg [] [] []
    (by decide) (by decide) (by decide)

/-- Once the responder's flag is set, every call panics. -/
theorem runCalls_flagged (cs : List RCall) :
    runCalls { called := true } cs = List.replicate cs.length .panicked := by
  induction cs with
  | nil => rfl
  | cons c cs ih =>
    cases c <;>
      simp [runCalls, RCall.apply, ProposalResponder.Accept, ProposalResponder.Reject,
        UpdateResponder.Accept, UpdateResponder.Reject, Responder.call, trySet,
        List.replicate, ih]

/-- C6: on a fresh ProposalResponder or UpdateResponder, for any non-empty
sequence of Accept/Reject calls, exactly the first call proceeds into the
protocol side (consuming the atomic flag) and every later call panics. -/
theorem responder_exactly_once (c : RCall) (cs : List RCall) :
    runCalls newResponder (c :: cs) =
      CallResult.proceeds :: List.replicate cs.length .panicked := by
  cases c <;>
    simp [runCalls, RCall.apply, ProposalResponder.Accept, ProposalResponder.Reject,
      UpdateResponder.Accept, UpdateResponder.Reject, Responder.call, trySet,
      newResponder, runCalls_flagged]

/-- C8: the receiver's queue has the fixed capacity 16
(`receiverBufferSize`), and `Next` — with the context-done and closed
signals as sampled at entry — returns `(nil, nil)` whenever either signal
is set, and dequeues the head of the queue only when neither is set. -/
theorem receiver_next_spec :
    receiverBufferSize = 16 ∧ NewReceiver.cap = 16 ∧
    (∀ (r r1 : Receiver) (p : PeerT) (msg : MsgT), r.Put p msg = some r1 →
      r1.cap = r.cap ∧ (r.msgs.length ≤ r.cap → r1.msgs.length ≤ r1.cap)) ∧
    (∀ (ctxDone : Bool) (r : Receiver),
      ((ctxDone = true ∨ r.closed = true) → r.Next ctxDone = .nilNil r) ∧
      (∀ p msg r1, r.Next ctxDone = .dequeued p msg r1 →
        ctxDone = false ∧ r.closed = false ∧ r.msgs.head? = some (p, msg) ∧
        r1 = { r with msgs := r.msgs.tail })) := by
  refine ⟨rfl, rfl, ?_, ?_⟩
  · intro r r1 p msg h
    unfold Receiver.Put at h
    split at h
    · cases h; exact ⟨rfl, fun h2 => h2⟩
    · split at h
      · rename_i hlen
        cases h
        exact ⟨rfl, fun _ => by simpa using Nat.succ_le_of_lt hlen⟩
      · cases h
  · intro ctxDone r
    refine ⟨?_, ?_⟩
    · intro h
      unfold Receiver.Next
      rcases h with h | h
      · rw [if_pos h]
      · by_cases hc : ctxDone = true
        · rw [if_pos hc]
        · rw [if_neg hc, if_pos h]
    · intro p msg r1 h
      unfold Receiver.Next at h
      by_cases hc : ctxDone = true
      · rw [if_pos hc] at h; cases h
      · rw [if_neg hc] at h
        by_cases hcl : r.closed = true
        · rw [if_pos hcl] at h; cases h
        · rw [if_neg hcl] at h
          rcases hm : r.msgs with _ | ⟨t, ts⟩
          · rw [hm] at h; cases h
          · rw [hm] at h
            cases h
            exact ⟨by simpa using hc, by simpa using hcl, by simp [hm], by simp [hm]⟩

theorem receiver_next_spec_witness :
    Receiver.Next true NewReceiver = .nilNil NewReceiver :=
  (receiver_next_spec.2.2.2 true NewReceiver).1 (Or.inl rfl)

/-! ## Helper lemmas about `expect` and `enableStaged` -/

theorem expect_err_shape (m : Machine) (tr : PhaseTransition) (e : Err)
    (h : m.expect tr = some e) : ∃ msg, e = .phaseTransition m.phase tr msg := by
  unfold Machine.expect at h
  split at h
  · cases h; exact ⟨_, rfl⟩
  · split at h
    · cases h; exact ⟨_, rfl⟩
    · cases h

theorem expect_none_facts (m : Machine) (tr : PhaseTransition)
    (h : m.expect tr = none) :
    m.phase = tr.From ∧ validPhaseTransitions ⟨m.phase, tr.To⟩ = true := by
  unfold Machine.expect at h
  split at h
  · cases h
  · split at h
    · cases h
    · rename_i h1 h2
      exact ⟨by simpa using h1, by simpa using h2⟩

theorem expect_ne_from (m : Machine) (tr : PhaseTransition)
    (h : m.phase ≠ tr.From) :
    m.expect tr = some (.phaseTransition m.phase tr "not in correct phase") := by
  unfold Machine.expect
  rw [if_pos h]
  rfl

theorem enableStaged_final_mismatch (m : Machine) (tr : PhaseTransition)
    (st : State) (hst : m.stagingTX.State = some st)
    (hmm : decide (tr.To = Phase.Final) ≠ st.IsFinal) :
    ∃ msg, m.enableStaged tr = .err m (.phaseTransition m.phase tr msg) := by
  unfold Machine.enableStaged
  cases hex : m.expect tr with
  | some e =>
    obtain ⟨msg, rfl⟩ := expect_err_shape m tr e hex
    exact ⟨msg, rfl⟩
  | none =>
    refine ⟨"State.IsFinal and target phase don't match", ?_⟩
    simp only [hst]
    rw [if_pos (bne_iff_ne.mpr hmm)]
    rfl

/-- C10: promotion requires the staged state's finality to *match* the
target phase: with a staged final state, EnableInit and EnableUpdate fail
with a phase-transition error (carrying the current phase and the attempted
transition) leaving the machine unchanged, and with a staged non-final
state, EnableFinal fails the same way. -/
theorem enable_requires_isFinal_biconditional (m : Machine) (st : State)
    (hst : m.stagingTX.State = some st) :
    (st.IsFinal = true →
      (∃ msg, m.EnableInit =
        .err m (.phaseTransition m.phase ⟨.InitSigning, .Funding⟩ msg)) ∧
      (∃ msg, m.EnableUpdate =
        .err m (.phaseTransition m.phase ⟨.Signing, .Acting⟩ msg))) ∧
    (st.IsFinal = false →
      ∃ msg, m.EnableFinal =
        .err m (.phaseTransition m.phase ⟨.Signing, .Final⟩ msg)) := by
  refine ⟨fun hf => ⟨?_, ?_⟩, fun hf => ?_⟩
  · exact enableStaged_final_mismatch m ⟨.InitSigning, .Funding⟩ st hst (by simp [hf])
  · exact enableStaged_final_mismatch m ⟨.Signing, .Acting⟩ st hst (by simp [hf])
  · exact enableStaged_final_mismatch m ⟨.Signing, .Final⟩ st hst (by simp [hf])

/-- A machine in `Signing` whose staged version-1 state is final and fully
signed. -/
def finalStagedMachine : Machine :=
  { actingMachine with
    phase := .Signing
    stagingTX := { State := some { exState1 with IsFinal := true },
                   Sigs := [some exSig0, some exSig1] } }

theorem enable_requires_isFinal_biconditional_witness :
    ∃ msg, finalStagedMachine.EnableUpdate =
      .err finalStagedMachine
        (.phaseTransition finalStagedMachine.phase ⟨.Signing, .Acting⟩ msg) :=
  ((enable_requires_isFinal_biconditional finalStagedMachine
    { exState1 with IsFinal := true } rfl).1 rfl).2

/-- C3: with a current state present, validTransition succeeds exactly when
the candidate state carries the channel's ID and app, the current state is
not final, the version increases by one, the candidate allocation is valid
and the per-asset column sums are preserved; and it either succeeds or
returns an error, in both cases leaving the machine unchanged. -/
theorem validTransition_characterization (m : Machine) (toState cur : State)
    (hcur : m.currentTX.State = some cur) :
    (m.validTransition toState = .ok m () ↔
      (toState.ID = m.params.id ∧
        App.Def m.params.App = App.Def toState.App ∧
        cur.IsFinal = false ∧
        toState.Version = cur.Version + 1 ∧
        toState.Allocation.Valid = true ∧
        equalSum cur.Allocation toState.Allocation = .ok true)) ∧
    (m.validTransition toState = .ok m () ∨
      ∃ e, m.validTransition toState = .err m e) := by
  constructor
  · unfold Machine.validTransition
    simp only [hcur]
    split
    · rename_i hc
      exact ⟨fun h => MRes.noConfusion h, fun hr => absurd hr.1 hc⟩
    · rename_i hc1
      split
      · rename_i hc2
        exact ⟨fun h => MRes.noConfusion h, fun hr => absurd hr.2.1 hc2⟩
      · rename_i hc2
        split
        · rename_i hc3
          refine ⟨fun h => MRes.noConfusion h, fun hr => ?_⟩
          rw [hr.2.2.1] at hc3
          cases hc3
        · rename_i hc3
          split
          · rename_i hc4
            refine ⟨fun h => MRes.noConfusion h, fun hr => ?_⟩
            exact absurd hr.2.2.2.1.symm hc4
          · rename_i hc4
            split
            · rename_i hc5
              exact ⟨fun h => MRes.noConfusion h, fun hr => absurd hr.2.2.2.2.1 hc5⟩
            · rename_i hc5
              split
              · rename_i e heq
                refine ⟨fun h => MRes.noConfusion h, fun hr => ?_⟩
                have h6 := hr.2.2.2.2.2
                rw [heq] at h6
                exact Except.noConfusion h6
              · rename_i heq
                refine ⟨fun h => MRes.noConfusion h, fun hr => ?_⟩
                have h6 := hr.2.2.2.2.2
                rw [heq] at h6
                simp at h6
              · rename_i heq
                refine ⟨fun _ => ⟨not_not.mp hc1, not_not.mp hc2,
                  by simpa using hc3, (not_not.mp hc4).symm,
                  by simpa using hc5, heq⟩, fun _ => rfl⟩
  · unfold Machine.validTransition
    simp only [hcur]
    split
    · exact Or.inr ⟨_, rfl⟩
    · split
      · exact Or.inr ⟨_, rfl⟩
      · split
        · exact Or.inr ⟨_, rfl⟩
        · split
          · exact Or.inr ⟨_, rfl⟩
          · split
            · exact Or.inr ⟨_, rfl⟩
            · split
              · exact Or.inr ⟨_, rfl⟩
              · exact Or.inr ⟨_, rfl⟩
              · exact Or.inl rfl

theorem validTransition_characterization_witness :
    actingMachine.validTransition exState1 = .ok actingMachine () :=
  (validTransition_characterization actingMachine exState1 exState0 rfl).1.mpr
    ⟨by decide, by decide, by decide, by decide, by decide, by decide⟩

/-- C1 (the code as it stands): on a concrete two-party machine in `Acting`
with a valid next state, the proposer-side Channel.Update stages the state
and self-signs, then hands a `msgChannelUpdateAcc{ID, Version, Sig}` — not
a `ChannelUpdate{state, actorIdx, sig}` message — to the connection and
returns at once: no reply is awaited, AddSig is never called (the peer's
signature slot is still empty) and EnableUpdate never runs (the machine is
left in `Signing`, not `Acting`). -/
theorem channel_update_sends_acc_and_returns :
    Channel.Update testBackend actingMachine { State := exState1, ActorIdx := 0 } =
      .ok signingMachine
        (.updateAcc { ChannelID := exID, Version := 1, Sig := exSig0 }) := by
  decide

/-- C7: in a signing phase a successful Sig memoizes the returned signature
in the own staging slot, and a second call — under *any* backend, i.e.
without re-signing — returns the identical signature and leaves the machine
untouched; outside a signing phase Sig returns a phase-transition error
(current and attempted transition both the current phase) and changes
nothing; a failed call changes nothing. -/
theorem sig_memoization (B B2 : Backend) (m : Machine) :
    (inPhase m.phase signingPhases = false →
      Machine.Sig B m = .err m (.phaseTransition m.phase ⟨m.phase, m.phase⟩
        "can only create own signature in a signing phase")) ∧
    (∀ m1 sg, Machine.Sig B m = .ok m1 sg →
      m1.phase = m.phase ∧ m1.idx = m.idx ∧
      m1.stagingTX.Sigs.get? m1.idx = some (some sg) ∧
      Machine.Sig B2 m1 = .ok m1 sg) ∧
    (∀ m1 e, Machine.Sig B m = .err m1 e → m1 = m) := by
  refine ⟨?_, ?_, ?_⟩
  · intro h
    unfold Machine.Sig
    rw [if_pos (by simp [h])]
    rfl
  · intro m1 sg h
    unfold Machine.Sig at h
    split at h
    · exact MRes.noConfusion h
    · rename_i hph
      split at h
      · exact MRes.noConfusion h
      · rename_i sg0 hslot
        cases h
        refine ⟨rfl, rfl, hslot, ?_⟩
        unfold Machine.Sig
        rw [if_neg hph, hslot]
      · rename_i hslot
        split at h
        · exact MRes.noConfusion h
        · rename_i st hstat
          split at h
          · exact MRes.noConfusion h
          · rename_i sg0 hsign
            cases h
            have hlt : m.idx < m.stagingTX.Sigs.length := by
              by_contra hge
              rw [List.get?_eq_none.mpr (Nat.le_of_not_lt hge)] at hslot
              exact Option.noConfusion hslot
            have hget : (m.stagingTX.Sigs.set m.idx (some sg)).get? m.idx
                = some (some sg) :=
              List.get?_set_eq_of_lt (some sg) hlt
            refine ⟨rfl, rfl, hget, ?_⟩
            unfold Machine.Sig
            rw [if_neg hph]
            rw [show ({ m with stagingTX := { m.stagingTX with
              Sigs := m.stagingTX.Sigs.set m.idx (some sg) } } : Machine).stagingTX.Sigs.get?
              m.idx = some (some sg) from hget]
  · intro m1 e h
    unfold Machine.Sig at h
    split at h
    · cases h; rfl
    · split at h
      · exact MRes.noConfusion h
      · exact MRes.noConfusion h
      · split at h
        · exact MRes.noConfusion h
        · split at h
          · cases h; rfl
          · exact MRes.noConfusion h

theorem sig_memoization_witness :
    Machine.Sig testBackend signingMachine = .ok signingMachine exSig0 ∧
    Machine.Sig testBackend signingMachine = .ok signingMachine exSig0 :=
  have h := (sig_memoization testBackend testBackend signingMachine).2.1
    signingMachine exSig0 (by decide)
  ⟨by decide, h.2.2.2⟩

/-- The complete behaviour of `enableStaged`: on success the expected
transition held, the staged state's finality matches the target, every
signature slot was filled, and the staging transaction is promoted; on
error or panic the machine is unchanged; a wrong phase gives the
"not in correct phase" phase-transition error. -/
theorem enableStaged_spec (m : Machine) (tr : PhaseTransition) :
    (∀ m1 v, m.enableStaged tr = .ok m1 v →
      m.phase = tr.From ∧ validPhaseTransitions ⟨m.phase, tr.To⟩ = true ∧
      (∃ st, m.stagingTX.State = some st ∧
        decide (tr.To = Phase.Final) = st.IsFinal) ∧
      m.stagingTX.Sigs.all Option.isSome = true ∧
      m1 = { m with prevTXs := m.prevTXs ++ [m.currentTX],
                    currentTX := m.stagingTX,
                    stagingTX := Transaction.empty,
                    phase := tr.To }) ∧
    (m.phase ≠ tr.From →
      m.enableStaged tr =
        .err m (.phaseTransition m.phase tr "not in correct phase")) ∧
    (∀ m1 e, m.enableStaged tr = .err m1 e → m1 = m) ∧
    (∀ m1, m.enableStaged tr = .panics m1 → m1 = m) := by
  refine ⟨?_, ?_, ?_, ?_⟩
  · intro m1 v h
    unfold Machine.enableStaged at h
    split at h
    · exact MRes.noConfusion h
    · rename_i hex
      split at h
      · exact MRes.noConfusion h
      · rename_i st hst
        split at h
        · exact MRes.noConfusion h
        · rename_i hfin
          split at h
          · exact MRes.noConfusion h
          · rename_i hsigs
            cases h
            obtain ⟨hfrom, htab⟩ := expect_none_facts m tr hex
            refine ⟨hfrom, htab, ⟨st, hst, ?_⟩, not_not.mp (by simpa using hsigs), rfl⟩
            by_contra hne
            exact hfin (bne_iff_ne.mpr hne)
  · intro hne
    unfold Machine.enableStaged
    rw [expect_ne_from m tr hne]
  · intro m1 e h
    unfold Machine.enableStaged at h
    split at h
    · cases h; rfl
    · split at h
      · exact MRes.noConfusion h
      · split at h
        · cases h; rfl
        · split at h
          · cases h; rfl
          · exact MRes.noConfusion h
  · intro m1 h
    unfold Machine.enableStaged at h
    split at h
    · exact MRes.noConfusion h
    · split at h
      · cases h; rfl
      · split at h
        · exact MRes.noConfusion h
        · split at h
          · exact MRes.noConfusion h
          · exact MRes.noConfusion h

/-- The three staged-promotion entry points of the machine. -/
inductive EnableOp where
  | initE
  | updateE
  | finalE
deriving DecidableEq

/-- Dispatch to EnableInit / EnableUpdate / EnableFinal. -/
def EnableOp.run : EnableOp → Machine → MRes Unit
  | .initE => Machine.EnableInit
  | .updateE => Machine.EnableUpdate
  | .finalE => Machine.EnableFinal

/-- The phase transition each entry point expects. -/
def EnableOp.tr : EnableOp → PhaseTransition
  | .initE => ⟨.InitSigning, .Funding⟩
  | .updateE => ⟨.Signing, .Acting⟩
  | .finalE => ⟨.Signing, .Final⟩

/-- C4: EnableInit / EnableUpdate / EnableFinal succeed only in their
expected from-phase with every signature slot of the staging transaction
filled — EnableFinal additionally only with a final staged state — and on
success they append the old current transaction to prevTxs, promote the
staging transaction, clear it, and advance to the target phase; on any
failure (error or panic) the machine is unchanged. -/
theorem enable_promotion (op : EnableOp) (m : Machine) :
    (∀ m1, op.run m = .ok m1 () →
      m.phase = (op.tr).From ∧
      (∃ st, m.stagingTX.State = some st ∧
        (op = .finalE → st.IsFinal = true) ∧
        decide ((op.tr).To = Phase.Final) = st.IsFinal) ∧
      m.stagingTX.Sigs.all Option.isSome = true ∧
      m1 = { m with prevTXs := m.prevTXs ++ [m.currentTX],
                    currentTX := m.stagingTX,
                    stagingTX := Transaction.empty,
                    phase := (op.tr).To }) ∧
    (∀ m1 e, op.run m = .err m1 e → m1 = m) ∧
    (∀ m1, op.run m = .panics m1 → m1 = m) := by
  cases op with
  | initE =>
    have hs := enableStaged_spec m ⟨.InitSigning, .Funding⟩
    refine ⟨?_, hs.2.2.1, hs.2.2.2⟩
    intro m1 h
    obtain ⟨hfrom, -, ⟨st, hst, hfin⟩, hsigs, hm1⟩ := hs.1 m1 () h
    exact ⟨hfrom, ⟨st, hst, fun hop => EnableOp.noConfusion hop, hfin⟩, hsigs, hm1⟩
  | updateE =>
    have hs := enableStaged_spec m ⟨.Signing, .Acting⟩
    refine ⟨?_, hs.2.2.1, hs.2.2.2⟩
    intro m1 h
    obtain ⟨hfrom, -, ⟨st, hst, hfin⟩, hsigs, hm1⟩ := hs.1 m1 () h
    exact ⟨hfrom, ⟨st, hst, fun hop => EnableOp.noConfusion hop, hfin⟩, hsigs, hm1⟩
  | finalE =>
    have hs := enableStaged_spec m ⟨.Signing, .Final⟩
    refine ⟨?_, hs.2.2.1, hs.2.2.2⟩
    intro m1 h
    obtain ⟨hfrom, -, ⟨st, hst, hfin⟩, hsigs, hm1⟩ := hs.1 m1 () h
    exact ⟨hfrom, ⟨st, hst, fun _ => by simpa using hfin.symm, hfin⟩, hsigs, hm1⟩

/-- The signing machine with both signatures present on the staged state. -/
def fullySignedMachine : Machine :=
  { actingMachine with
    phase := .Signing
    stagingTX := { State := some exState1, Sigs := [some exSig0, some exSig1] } }

/-- The result of promoting `fullySignedMachine`. -/
def promotedMachine : Machine :=
  { fullySignedMachine with
    prevTXs := fullySignedMachine.prevTXs ++ [fullySignedMachine.currentTX]
    currentTX := fullySignedMachine.stagingTX
    stagingTX := Transaction.empty
    phase := Phase.Acting }

theorem enable_promotion_witness :
    fullySignedMachine.phase = (EnableOp.updateE.tr).From ∧
    (∃ st, fullySignedMachine.stagingTX.State = some st ∧
      (EnableOp.updateE = .finalE → st.IsFinal = true) ∧
      decide ((EnableOp.updateE.tr).To = Phase.Final) = st.IsFinal) ∧
    fullySignedMachine.stagingTX.Sigs.all Option.isSome = true ∧
    promotedMachine =
      { fullySignedMachine with
        prevTXs := fullySignedMachine.prevTXs ++ [fullySignedMachine.currentTX],
        currentTX := fullySignedMachine.stagingTX,
        stagingTX := Transaction.empty,
        phase := (EnableOp.updateE.tr).To } :=
  (enable_promotion .updateE fullySignedMachine).1 promotedMachine (by decide)

/-- C5: in a signing phase, AddSig(idx, sig) succeeds exactly when the slot
`stagingTx.Sigs[idx]` is empty and the signature verifies against
`parts[idx]` over the staging state, and then stores the signature in that
slot; a filled slot or failed verification gives an error with the machine
(slot included) unchanged; outside a signing phase it returns a
phase-transition error; an out-of-range index panics. -/
theorem addSig_spec (B : Backend) (m : Machine) (idx : Index) (sg : Wallet.Sig) :
    (inPhase m.phase signingPhases = false →
      Machine.AddSig B m idx sg = .err m (.phaseTransition m.phase ⟨m.phase, m.phase⟩
        "can only add signature in a signing phase")) ∧
    (inPhase m.phase signingPhases = true → m.stagingTX.Sigs.get? idx = none →
      Machine.AddSig B m idx sg = .panics m) ∧
    (∀ s0, inPhase m.phase signingPhases = true →
      m.stagingTX.Sigs.get? idx = some (some s0) →
      Machine.AddSig B m idx sg = .err m (.generic "signature already present")) ∧
    (∀ st addr, inPhase m.phase signingPhases = true →
      m.stagingTX.Sigs.get? idx = some none →
      m.params.Parts.get? idx = some addr →
      m.stagingTX.State = some st →
      (B.Verify addr m.params st sg = .ok true →
        Machine.AddSig B m idx sg =
          .ok { m with stagingTX := { m.stagingTX with
            Sigs := m.stagingTX.Sigs.set idx (some sg) } } ()) ∧
      (B.Verify addr m.params st sg ≠ .ok true →
        ∃ e, Machine.AddSig B m idx sg = .err m e)) ∧
    (∀ m1 e, Machine.AddSig B m idx sg = .err m1 e → m1 = m) ∧
    (∀ m1 v, Machine.AddSig B m idx sg = .ok m1 v →
      m.stagingTX.Sigs.get? idx = some none ∧
      m1 = { m with stagingTX := { m.stagingTX with
        Sigs := m.stagingTX.Sigs.set idx (some sg) } }) := by
  refine ⟨?_, ?_, ?_, ?_, ?_, ?_⟩
  · intro h
    unfold Machine.AddSig
    rw [if_pos (by simp [h])]
    rfl
  · intro hph hslot
    unfold Machine.AddSig
    rw [if_neg (by simp [hph]), hslot]
  · intro s0 hph hslot
    unfold Machine.AddSig
    rw [if_neg (by simp [hph]), hslot]
  · intro st addr hph hslot haddr hst
    constructor
    · intro hv
      unfold Machine.AddSig
      rw [if_neg (by simp [hph])]
      simp only [hslot, haddr, hst, hv]
    · intro hv
      rcases hver : B.Verify addr m.params st sg with e | b
      · refine ⟨.generic e, ?_⟩
        unfold Machine.AddSig
        rw [if_neg (by simp [hph])]
        simp only [hslot, haddr, hst, hver]
      · cases b with
        | false =>
          refine ⟨.generic "invalid signature", ?_⟩
          unfold Machine.AddSig
          rw [if_neg (by simp [hph])]
          simp only [hslot, haddr, hst, hver]
        | true => exact absurd hver hv
  · intro m1 e h
    unfold Machine.AddSig at h
    split at h
    · cases h; rfl
    · split at h
      · exact MRes.noConfusion h
      · cases h; rfl
      · split at h
        · exact MRes.noConfusion h
        · exact MRes.noConfusion h
        · split at h
          · cases h; rfl
          · cases h; rfl
          · exact MRes.noConfusion h
  · intro m1 v h
    unfold Machine.AddSig at h
    split at h
    · exact MRes.noConfusion h
    · split at h
      · exact MRes.noConfusion h
      · exact MRes.noConfusion h
      · rename_i hslot
        split at h
        · exact MRes.noConfusion h
        · exact MRes.noConfusion h
        · split at h
          · exact MRes.noConfusion h
          · exact MRes.noConfusion h
          · cases h
            exact ⟨hslot, rfl⟩

theorem addSig_spec_witness :
    Machine.AddSig testBackend signingMachine 1 exSig1 =
      .ok { signingMachine with stagingTX := { signingMachine.stagingTX with
        Sigs := signingMachine.stagingTX.Sigs.set 1 (some exSig1) } } () :=
  ((addSig_spec testBackend signingMachine 1 exSig1).2.2.2.1 exState1 20
    (by decide) (by decide) (by decide) (by decide)).1 (by decide)

/-- Sig never moves the phase and leaves the machine unchanged on error or
panic. -/
theorem sig_shape (B : Backend) (m : Machine) :
    (∀ m1 sg, Machine.Sig B m = .ok m1 sg → m1.phase = m.phase) ∧
    (∀ m1 e, Machine.Sig B m = .err m1 e → m1 = m) ∧
    (∀ m1, Machine.Sig B m = .panics m1 → m1 = m) := by
  refine ⟨?_, ?_, ?_⟩ <;> intro m1
  · intro sg h
    unfold Machine.Sig at h
    split at h
    · exact MRes.noConfusion h
    · split at h
      · exact MRes.noConfusion h
      · cases h; rfl
      · split at h
        · exact MRes.noConfusion h
        · split at h
          · exact MRes.noConfusion h
          · cases h; rfl
  · intro e h
    unfold Machine.Sig at h
    split at h
    · cases h; rfl
    · split at h
      · exact MRes.noConfusion h
      · exact MRes.noConfusion h
      · split at h
        · exact MRes.noConfusion h
        · split at h
          · cases h; rfl
          · exact MRes.noConfusion h
  · intro h
    unfold Machine.Sig at h
    split at h
    · exact MRes.noConfusion h
    · split at h
      · cases h; rfl
      · exact MRes.noConfusion h
      · split at h
        · cases h; rfl
        · split at h
          · exact MRes.noConfusion h
          · exact MRes.noConfusion h

/-- AddSig never moves the phase and leaves the machine unchanged on error
or panic. -/
theorem addSig_shape (B : Backend) (m : Machine) (idx : Index) (sg : Wallet.Sig) :
    (∀ m1 v, Machine.AddSig B m idx sg = .ok m1 v → m1.phase = m.phase) ∧
    (∀ m1 e, Machine.AddSig B m idx sg = .err m1 e → m1 = m) ∧
    (∀ m1, Machine.AddSig B m idx sg = .panics m1 → m1 = m) := by
  refine ⟨?_, ?_, ?_⟩ <;> intro m1
  · intro v h
    unfold Machine.AddSig at h
    split at h
    · exact MRes.noConfusion h
    · split at h
      · exact MRes.noConfusion h
      · exact MRes.noConfusion h
      · split at h
        · exact MRes.noConfusion h
        · exact MRes.noConfusion h
        · split at h
          · exact MRes.noConfusion h
          · exact MRes.noConfusion h
          · cases h; rfl
  · intro e h
    unfold Machine.AddSig at h
    split at h
    · cases h; rfl
    · split at h
      · exact MRes.noConfusion h
      · cases h; rfl
      · split at h
        · exact MRes.noConfusion h
        · exact MRes.noConfusion h
        · split at h
          · cases h; rfl
          · cases h; rfl
          · exact MRes.noConfusion h
  · intro h
    unfold Machine.AddSig at h
    split at h
    · exact MRes.noConfusion h
    · split at h
      · cases h; rfl
      · exact MRes.noConfusion h
      · split at h
        · cases h; rfl
        · cases h; rfl
        · split at h
          · exact MRes.noConfusion h
          · exact MRes.noConfusion h
          · exact MRes.noConfusion h

/-- The operations of the machine named by the legal-transition claim. -/
inductive MOp where
  | sigOp
  | addSigOp (idx : Index) (sg : Wallet.Sig)
  | enableInitOp
  | enableUpdateOp
  | enableFinalOp
  | discardUpdateOp
  | setFundedOp
  | setSettledOp

/-- Run an operation on the machine (Sig's returned signature is dropped). -/
def MOp.apply (B : Backend) (op : MOp) (m : Machine) : MRes Unit :=
  match op with
  | .sigOp =>
    match Machine.Sig B m with
    | .ok m1 _ => .ok m1 ()
    | .err m1 e => .err m1 e
    | .panics m1 => .panics m1
  | .addSigOp idx sg => Machine.AddSig B m idx sg
  | .enableInitOp => m.EnableInit
  | .enableUpdateOp => m.EnableUpdate
  | .enableFinalOp => m.EnableFinal
  | .discardUpdateOp => m.DiscardUpdate
  | .setFundedOp => m.SetFunded
  | .setSettledOp => m.SetSettled

/-- The phase precondition each operation checks first. -/
def MOp.phaseOK (op : MOp) (m : Machine) : Bool :=
  match op with
  | .sigOp | .addSigOp _ _ => inPhase m.phase signingPhases
  | .enableInitOp => m.phase = .InitSigning
  | .enableUpdateOp | .enableFinalOp | .discardUpdateOp => m.phase = .Signing
  | .setFundedOp => m.phase = .Funding
  | .setSettledOp => m.phase = .Final

/-- The transition each operation attempts (`selfTransition` for the two
signature operations). -/
def MOp.attempted (op : MOp) (m : Machine) : PhaseTransition :=
  match op with
  | .sigOp | .addSigOp _ _ => ⟨m.phase, m.phase⟩
  | .enableInitOp => ⟨.InitSigning, .Funding⟩
  | .enableUpdateOp => ⟨.Signing, .Acting⟩
  | .enableFinalOp => ⟨.Signing, .Final⟩
  | .discardUpdateOp => ⟨.Signing, .Acting⟩
  | .setFundedOp => ⟨.Funding, .Acting⟩
  | .setSettledOp => ⟨.Final, .Settled⟩

/-- C2: under every operation the phase either stays put or moves along one
of the seven legal transitions; an operation whose phase precondition fails
returns a phase-transition error carrying the current phase and the
attempted transition with the whole machine (phase, stagingTx, currentTx,
prevTxs) unchanged; and every error or panic leaves the machine unchanged. -/
theorem machine_phase_discipline (B : Backend) (op : MOp) (m : Machine) :
    (∀ m1 v, MOp.apply B op m = .ok m1 v →
      m1.phase = m.phase ∨ validPhaseTransitions ⟨m.phase, m1.phase⟩ = true) ∧
    (MOp.phaseOK op m = false →
      ∃ msg, MOp.apply B op m =
        .err m (.phaseTransition m.phase (MOp.attempted op m) msg)) ∧
    (∀ m1 e, MOp.apply B op m = .err m1 e → m1 = m) ∧
    (∀ m1, MOp.apply B op m = .panics m1 → m1 = m) := by
  cases op with
  | sigOp =>
    have hs := sig_shape B m
    refine ⟨?_, ?_, ?_, ?_⟩
    · intro m1 v h
      simp only [MOp.apply] at h
      split at h
      · rename_i m2 sg2 heq
        cases h
        exact Or.inl (hs.1 _ _ heq)
      · exact MRes.noConfusion h
      · exact MRes.noConfusion h
    · intro hph
      simp only [MOp.phaseOK] at hph
      refine ⟨"can only create own signature in a signing phase", ?_⟩
      have hsig : Machine.Sig B m = .err m (.phaseTransition m.phase
          ⟨m.phase, m.phase⟩ "can only create own signature in a signing phase") := by
        simp [Machine.Sig, hph, Machine.error, Machine.selfTransition]
      simp only [MOp.apply, MOp.attempted, hsig]
    · intro m1 e h
      simp only [MOp.apply] at h
      split at h
      · exact MRes.noConfusion h
      · rename_i m2 e2 heq
        cases h
        exact hs.2.1 _ _ heq
      · exact MRes.noConfusion h
    · intro m1 h
      simp only [MOp.apply] at h
      split at h
      · exact MRes.noConfusion h
      · exact MRes.noConfusion h
      · rename_i m2 heq
        cases h
        exact hs.2.2 _ heq
  | addSigOp idx sg =>
    have hs := addSig_shape B m idx sg
    refine ⟨?_, ?_, ?_, ?_⟩
    · intro m1 v h
      simp only [MOp.apply] at h
      exact Or.inl (hs.1 _ _ h)
    · intro hph
      simp only [MOp.phaseOK] at hph
      refine ⟨"can only add signature in a signing phase", ?_⟩
      simp only [MOp.apply, MOp.attempted]
      simp [Machine.AddSig, hph, Machine.error, Machine.selfTransition]
    · intro m1 e h
      simp only [MOp.apply] at h
      exact hs.2.1 _ _ h
    · intro m1 h
      simp only [MOp.apply] at h
      exact hs.2.2 _ h
  | enableInitOp =>
    have hs := enableStaged_spec m ⟨.InitSigning, .Funding⟩
    refine ⟨?_, ?_, ?_, ?_⟩
    · intro m1 v h
      simp only [MOp.apply] at h
      obtain ⟨hfrom, htab, -, -, hm1⟩ := hs.1 m1 v h
      exact Or.inr (by rw [hm1]; exact htab)
    · intro hph
      simp only [MOp.phaseOK] at hph
      refine ⟨"not in correct phase", ?_⟩
      simp only [MOp.apply, MOp.attempted]
      exact hs.2.1 (of_decide_eq_false hph)
    · intro m1 e h
      simp only [MOp.apply] at h
      exact hs.2.2.1 _ _ h
    · intro m1 h
      simp only [MOp.apply] at h
      exact hs.2.2.2 _ h
  | enableUpdateOp =>
    have hs := enableStaged_spec m ⟨.Signing, .Acting⟩
    refine ⟨?_, ?_, ?_, ?_⟩
    · intro m1 v h
      simp only [MOp.apply] at h
      obtain ⟨hfrom, htab, -, -, hm1⟩ := hs.1 m1 v h
      exact Or.inr (by rw [hm1]; exact htab)
    · intro hph
      simp only [MOp.phaseOK] at hph
      refine ⟨"not in correct phase", ?_⟩
      simp only [MOp.apply, MOp.attempted]
      exact hs.2.1 (of_decide_eq_false hph)
    · intro m1 e h
      simp only [MOp.apply] at h
      exact hs.2.2.1 _ _ h
    · intro m1 h
      simp only [MOp.apply] at h
      exact hs.2.2.2 _ h
  | enableFinalOp =>
    have hs := enableStaged_spec m ⟨.Signing, .Final⟩
    refine ⟨?_, ?_, ?_, ?_⟩
    · intro m1 v h
      simp only [MOp.apply] at h
      obtain ⟨hfrom, htab, -, -, hm1⟩ := hs.1 m1 v h
      exact Or.inr (by rw [hm1]; exact htab)
    · intro hph
      simp only [MOp.phaseOK] at hph
      refine ⟨"not in correct phase", ?_⟩
      simp only [MOp.apply, MOp.attempted]
      exact hs.2.1 (of_decide_eq_false hph)
    · intro m1 e h
      simp only [MOp.apply] at h
      exact hs.2.2.1 _ _ h
    · intro m1 h
      simp only [MOp.apply] at h
      exact hs.2.2.2 _ h
  | discardUpdateOp =>
    refine ⟨?_, ?_, ?_, ?_⟩
    · intro m1 v h
      simp only [MOp.apply] at h
      unfold Machine.DiscardUpdate at h
      split at h
      · exact MRes.noConfusion h
      · rename_i hex
        cases h
        obtain ⟨hfrom, -⟩ := expect_none_facts m ⟨.Signing, .Acting⟩ hex
        exact Or.inr (by rw [hfrom]; rfl)
    · intro hph
      simp only [MOp.phaseOK] at hph
      refine ⟨"not in correct phase", ?_⟩
      simp only [MOp.apply, MOp.attempted]
      unfold Machine.DiscardUpdate
      rw [expect_ne_from m ⟨.Signing, .Acting⟩ (of_decide_eq_false hph)]
    · intro m1 e h
      simp only [MOp.apply] at h
      unfold Machine.DiscardUpdate at h
      split at h
      · cases h; rfl
      · exact MRes.noConfusion h
    · intro m1 h
      simp only [MOp.apply] at h
      unfold Machine.DiscardUpdate at h
      split at h
      · exact MRes.noConfusion h
      · exact MRes.noConfusion h
  | setFundedOp =>
    refine ⟨?_, ?_, ?_, ?_⟩
    · intro m1 v h
      simp only [MOp.apply] at h
      unfold Machine.SetFunded at h
      split at h
      · exact MRes.noConfusion h
      · rename_i hex
        cases h
        obtain ⟨hfrom, -⟩ := expect_none_facts m ⟨.Funding, .Acting⟩ hex
        exact Or.inr (by rw [hfrom]; rfl)
    · intro hph
      simp only [MOp.phaseOK] at hph
      refine ⟨"not in correct phase", ?_⟩
      simp only [MOp.apply, MOp.attempted]
      unfold Machine.SetFunded
      rw [expect_ne_from m ⟨.Funding, .Acting⟩ (of_decide_eq_false hph)]
    · intro m1 e h
      simp only [MOp.apply] at h
      unfold Machine.SetFunded at h
      split at h
      · cases h; rfl
      · exact MRes.noConfusion h
    · intro m1 h
      simp only [MOp.apply] at h
      unfold Machine.SetFunded at h
      split at h
      · exact MRes.noConfusion h
      · exact MRes.noConfusion h
  | setSettledOp =>
    refine ⟨?_, ?_, ?_, ?_⟩
    · intro m1 v h
      simp only [MOp.apply] at h
      unfold Machine.SetSettled at h
      split at h
      · exact MRes.noConfusion h
      · rename_i hex
        cases h
        obtain ⟨hfrom, -⟩ := expect_none_facts m ⟨.Final, .Settled⟩ hex
        exact Or.inr (by rw [hfrom]; rfl)
    · intro hph
      simp only [MOp.phaseOK] at hph
      refine ⟨"not in correct phase", ?_⟩
      simp only [MOp.apply, MOp.attempted]
      unfold Machine.SetSettled
      rw [expect_ne_from m ⟨.Final, .Settled⟩ (of_decide_eq_false hph)]
    · intro m1 e h
      simp only [MOp.apply] at h
      unfold Machine.SetSettled at h
      split at h
      · cases h; rfl
      · exact MRes.noConfusion h
    · intro m1 h
      simp only [MOp.apply] at h
      unfold Machine.SetSettled at h
      split at h
      · exact MRes.noConfusion h
      · exact MRes.noConfusion h

theorem machine_phase_discipline_witness :
    ∃ msg, MOp.apply testBackend .enableUpdateOp actingMachine =
      .err actingMachine
        (.phaseTransition actingMachine.phase
          (MOp.attempted .enableUpdateOp actingMachine) msg) :=
  (machine_phase_discipline testBackend .enableUpdateOp actingMachine).2.1 (by decide)

end Perun
